import Mathlib

/-!
# Verification of the StoryGen media synthesis pipeline

Shallow embedding of `src/utils/mediaUtils.ts` and `src/utils/serverRender.ts`.
JavaScript numbers are modelled as `ℚ` (every float literal appearing in the
source — `0.4`, `0.05`, the quantization scales — is an exact dyadic or decimal
value, and all sample values arising in the pipeline are exactly representable,
so `ℚ` is a faithful model of the float arithmetic actually performed).
Byte buffers (`Uint8Array`, `ArrayBuffer` contents) are `List Nat` with each
entry `< 256`; strings are `List Char` where character-level operations matter.
Fallible operations return `Except`.
-/

namespace StoryGen

/-! ## Bytes and 16-bit integers

`Int16Array` over a byte buffer reads consecutive little-endian byte pairs as
signed 16-bit integers (JS typed arrays use the platform byte order, which is
little-endian on every platform this app targets). -/

/-- Signed 16-bit reinterpretation of a value `v < 65536` (two's complement). -/
def toInt16 (v : Nat) : Int :=
  if v < 32768 then (v : Int) else (v : Int) - 65536

/-- Read a byte list as little-endian signed 16-bit integers, two bytes per
sample, exactly as `new Int16Array(bytes.buffer)` exposes the buffer. -/
def bytesToInt16s : List Nat → List Int
  | lo :: hi :: rest => toInt16 (lo + 256 * hi) :: bytesToInt16s rest
  | _ => []

/-- Little-endian bytes of `v` as a 16-bit field (`DataView.setUint16(_, v, true)`;
the value is reduced mod 2^16 by construction). -/
def uint16LE (v : Nat) : List Nat :=
  [v % 256, v / 256 % 256]

/-- Little-endian bytes of `v` as a 32-bit field (`DataView.setUint32(_, v, true)`). -/
def uint32LE (v : Nat) : List Nat :=
  [v % 256, v / 256 % 256, v / 65536 % 256, v / 16777216 % 256]

/-- `DataView.setInt16(_, v, true)` after `ToIntegerOrInfinity`: the integer is
stored mod 2^16, little-endian. -/
def int16LE (v : Int) : List Nat :=
  uint16LE (v % 65536).toNat

/-- Bytes of an ASCII tag string (`writeString` in `audioBufferToWav`). -/
def strBytes (s : String) : List Nat :=
  s.data.map Char.toNat

/-- Read back a little-endian 16-bit field at byte offset `off`. -/
def readUint16LE (l : List Nat) (off : Nat) : Nat :=
  l.getD off 0 + 256 * l.getD (off + 1) 0

/-- Read back a little-endian 32-bit field at byte offset `off`. -/
def readUint32LE (l : List Nat) (off : Nat) : Nat :=
  l.getD off 0 + 256 * l.getD (off + 1) 0 + 65536 * l.getD (off + 2) 0 +
    16777216 * l.getD (off + 3) 0

/-! ## `AudioBuffer` and `decodeAudio` (`mediaUtils.ts` lines 7–36) -/

/-- The Web Audio `AudioBuffer` as used by this code: channel count, sample
rate, frame count, and per-channel float sample data. -/
structure AudioBuffer where
  numberOfChannels : Nat
  sampleRate : Nat
  length : Nat
  channelData : List (List ℚ)
deriving Repr, DecidableEq

/-- Well-formedness of an `AudioBuffer` as the enclosing app guarantees it:
one channel list per channel, every channel holding `length` samples, at least
one channel, and field values inside the WAV header's 16/32-bit ranges. -/
def AudioBuffer.Wf (b : AudioBuffer) : Prop :=
  b.channelData.length = b.numberOfChannels ∧
  (∀ ch ∈ b.channelData, ch.length = b.length) ∧
  0 < b.numberOfChannels ∧
  b.numberOfChannels * 2 < 65536 ∧
  36 + b.length * b.numberOfChannels * 2 < 4294967296

instance (b : AudioBuffer) : Decidable b.Wf := by
  unfold AudioBuffer.Wf; infer_instance

/-- `decodeAudio` (lines 7–36): the base64 payload has already been turned
into raw bytes by `atob`/`charCodeAt` (modelled as the input byte list).
`new Int16Array(bytes.buffer)` throws a `RangeError` when the buffer's byte
length is not a multiple of 2, and `audioContext.createBuffer(1,
float32Data.length, 24000)` (line 30) throws a `NotSupportedError` when the
frame count is zero (empty payload); otherwise each little-endian 16-bit
sample is normalized to float via `s / 32768.0` and placed in a mono 24 kHz
buffer. -/
def decodeAudio (bytes : List Nat) : Except String AudioBuffer :=
  if bytes.length % 2 ≠ 0 then
    .error "RangeError: byte length of Int16Array should be a multiple of 2"
  else if bytes.length = 0 then
    .error "NotSupportedError: createBuffer called with zero length"
  else
    .ok { numberOfChannels := 1
          sampleRate := 24000
          length := bytes.length / 2
          channelData := [(bytesToInt16s bytes).map (fun k : Int => (k : ℚ) / 32768)] }

/-! ## `audioBufferToWav` (`mediaUtils.ts` lines 41–91) -/

/-- The clamp step: `Math.max(-1, Math.min(1, channels[i][pos]))` (line 81). -/
def clampSample (s : ℚ) : ℚ :=
  max (-1) (min 1 s)

/-- The scale step: `sample < 0 ? sample * 0x8000 : sample * 0x7FFF` (line 83),
applied to the already-clamped sample. -/
def scaleSample (s : ℚ) : ℚ :=
  let c := clampSample s
  if c < 0 then c * 32768 else c * 32767

/-- JavaScript's `ToIntegerOrInfinity` conversion performed by `setInt16`:
truncation toward zero. -/
def jsTrunc (q : ℚ) : Int :=
  if q < 0 then ⌈q⌉ else ⌊q⌋

/-- The interleaved sample stream written by the `while (pos < buffer.length)`
loop (lines 79–88): for each frame position, one sample from each channel in
channel order. -/
def interleavedSamples (b : AudioBuffer) : List ℚ :=
  (List.range b.length).flatMap (fun pos => b.channelData.map (fun data => data.getD pos 0))

/-- The 44-byte canonical WAV header written at lines 60–72, field by field in
source order. -/
def wavHeader (b : AudioBuffer) : List Nat :=
  strBytes "RIFF" ++
  uint32LE (36 + b.length * b.numberOfChannels * 2) ++
  strBytes "WAVE" ++
  strBytes "fmt " ++
  uint32LE 16 ++
  uint16LE 1 ++
  uint16LE b.numberOfChannels ++
  uint32LE b.sampleRate ++
  uint32LE (b.sampleRate * 2 * b.numberOfChannels) ++
  uint16LE (b.numberOfChannels * 2) ++
  uint16LE 16 ++
  strBytes "data" ++
  uint32LE (b.length * b.numberOfChannels * 2)

/-- `audioBufferToWav` (lines 41–91): the header followed by the interleaved,
clamped, scaled, truncated 16-bit little-endian samples. The imperative code
writes these bytes sequentially into a preallocated buffer of exactly this
size; the functional model concatenates them in the same order. -/
def audioBufferToWav (b : AudioBuffer) : List Nat :=
  wavHeader b ++
    ((interleavedSamples b).map (fun s => int16LE (jsTrunc (scaleSample s)))).flatten

theorem wavHeader_length (b : AudioBuffer) : (wavHeader b).length = 44 := by
  simp [wavHeader, strBytes, uint32LE, uint16LE]

/-- The header, fully unfolded to its 44 bytes. -/
theorem wavHeader_explicit (b : AudioBuffer) :
    wavHeader b =
      [82, 73, 70, 70,
       (36 + b.length * b.numberOfChannels * 2) % 256,
       (36 + b.length * b.numberOfChannels * 2) / 256 % 256,
       (36 + b.length * b.numberOfChannels * 2) / 65536 % 256,
       (36 + b.length * b.numberOfChannels * 2) / 16777216 % 256,
       87, 65, 86, 69,
       102, 109, 116, 32,
       16, 0, 0, 0,
       1, 0,
       b.numberOfChannels % 256, b.numberOfChannels / 256 % 256,
       b.sampleRate % 256, b.sampleRate / 256 % 256,
       b.sampleRate / 65536 % 256, b.sampleRate / 16777216 % 256,
       b.sampleRate * 2 * b.numberOfChannels % 256,
       b.sampleRate * 2 * b.numberOfChannels / 256 % 256,
       b.sampleRate * 2 * b.numberOfChannels / 65536 % 256,
       b.sampleRate * 2 * b.numberOfChannels / 16777216 % 256,
       b.numberOfChannels * 2 % 256, b.numberOfChannels * 2 / 256 % 256,
       16, 0,
       100, 97, 116, 97,
       b.length * b.numberOfChannels * 2 % 256,
       b.length * b.numberOfChannels * 2 / 256 % 256,
       b.length * b.numberOfChannels * 2 / 65536 % 256,
       b.length * b.numberOfChannels * 2 / 16777216 % 256] := rfl

theorem audioBufferToWav_drop_header (b : AudioBuffer) :
    (audioBufferToWav b).drop 44 =
      ((interleavedSamples b).map (fun s => int16LE (jsTrunc (scaleSample s)))).flatten := by
  rw [audioBufferToWav, show (44 : Nat) = (wavHeader b).length from (wavHeader_length b).symm,
    List.drop_left]

/-- The end-to-end requantization of one decoded sample value `k`. -/
def reencodeInt16 (k : Int) : Int :=
  jsTrunc (scaleSample ((k : ℚ) / 32768))

theorem clampSample_of_decoded (k : Int) (h1 : -32768 ≤ k) (h2 : k ≤ 32767) :
    clampSample ((k : ℚ) / 32768) = (k : ℚ) / 32768 := by
  have hle : (k : ℚ) / 32768 ≤ 1 := by
    rw [div_le_one (by norm_num)]
    exact_mod_cast h2.trans (by norm_num)
  have hk1 : (-32768 : ℚ) ≤ (k : ℚ) := by exact_mod_cast h1
  have hge : (-1 : ℚ) ≤ (k : ℚ) / 32768 := by
    rw [le_div_iff₀ (by norm_num : (0:ℚ) < 32768)]
    linarith
  simp [clampSample, min_eq_right hle, max_eq_right hge]

theorem reencodeInt16_close (k : Int) (h1 : -32768 ≤ k) (h2 : k ≤ 32767) :
    (-32768 ≤ reencodeInt16 k ∧ reencodeInt16 k ≤ 32767) ∧
      (k - reencodeInt16 k).natAbs ≤ 1 := by
  have hclamp := clampSample_of_decoded k h1 h2
  rcases lt_or_le k 0 with hneg | hpos
  · have hsneg : (k : ℚ) / 32768 < 0 :=
      div_neg_of_neg_of_pos (by exact_mod_cast hneg) (by norm_num)
    have : reencodeInt16 k = k := by
      rw [reencodeInt16, scaleSample]
      simp only [hclamp, if_pos hsneg]
      rw [div_mul_cancel₀ _ (by norm_num : (32768 : ℚ) ≠ 0)]
      rw [jsTrunc, if_pos (by exact_mod_cast hneg), Int.ceil_intCast]
    rw [this]
    omega
  · have hsnn : (0 : ℚ) ≤ (k : ℚ) / 32768 :=
      div_nonneg (by exact_mod_cast hpos) (by norm_num)
    have hscale : scaleSample ((k : ℚ) / 32768) = ((k * 32767 : Int) : ℚ) / ((32768 : Nat) : ℚ) := by
      rw [scaleSample]
      simp only [hclamp, if_neg (not_lt.mpr hsnn)]
      push_cast
      ring
    have : reencodeInt16 k = (k * 32767) / ((32768 : Nat) : Int) := by
      rw [reencodeInt16, hscale, jsTrunc,
        if_neg (not_lt.mpr (div_nonneg (by exact_mod_cast mul_nonneg hpos (by norm_num)) (by norm_num))),
        Rat.floor_intCast_div_natCast]
    rw [this]
    omega

theorem bytesToInt16s_int16LE (q : Int) (h1 : -32768 ≤ q) (h2 : q ≤ 32767)
    (rest : List Nat) :
    bytesToInt16s (int16LE q ++ rest) = q :: bytesToInt16s rest := by
  have hcons : int16LE q ++ rest =
      (q % 65536).toNat % 256 :: ((q % 65536).toNat / 256 % 256) :: rest := rfl
  rw [hcons, bytesToInt16s]
  congr 1
  rw [toInt16]
  split <;> omega

theorem bytesToInt16s_mem_bounds (bytes : List Nat) (hb : ∀ x ∈ bytes, x < 256) :
    ∀ k ∈ bytesToInt16s bytes, -32768 ≤ k ∧ k ≤ 32767 := by
  induction bytes using bytesToInt16s.induct with
  | case1 lo hi rest ih =>
    intro k hk
    simp only [bytesToInt16s, List.mem_cons] at hk
    rcases hk with hk | hk
    · have hlo := hb lo (by simp)
      have hhi := hb hi (by simp)
      subst hk
      rw [toInt16]
      split <;> omega
    · exact ih (fun x hx => hb x (by simp [hx])) k hk
  | case2 l h =>
    intro k hk
    cases l with
    | nil => simp [bytesToInt16s] at hk
    | cons a t =>
      cases t with
      | nil => simp [bytesToInt16s] at hk
      | cons a2 t2 => exact absurd rfl (h a a2 t2)

theorem bytesToInt16s_length (bytes : List Nat) :
    (bytesToInt16s bytes).length = bytes.length / 2 := by
  induction bytes using bytesToInt16s.induct with
  | case1 lo hi rest ih => simp [bytesToInt16s, ih]; omega
  | case2 l h =>
    cases l with
    | nil => simp [bytesToInt16s]
    | cons a t =>
      cases t with
      | nil => simp [bytesToInt16s]
      | cons a2 t2 => exact absurd rfl (h a a2 t2)

theorem flatMap_singleton_fn {α β : Type} (l : List α) (f : α → β) :
    (l.flatMap fun x => [f x]) = l.map f := by
  induction l with
  | nil => rfl
  | cons a t ih => simp [List.flatMap_cons, ih]

theorem range_map_getD (l : List ℚ) :
    (List.range l.length).map (fun i => l.getD i 0) = l := by
  apply List.ext_getElem
  · simp
  · intro i h1 h2
    simp [List.getD_eq_getElem l 0 h2, List.getElem_map, List.getElem_range,
      List.getElem?_eq_getElem h2]

/-- For a decoded (mono) buffer, the interleaved stream is just the single
channel's sample list. -/
theorem interleavedSamples_mono (fs : List ℚ) :
    interleavedSamples ⟨1, 24000, fs.length, [fs]⟩ = fs := by
  rw [interleavedSamples]
  simp only [List.map_cons, List.map_nil]
  rw [flatMap_singleton_fn, range_map_getD]

theorem bytesToInt16s_quantized (ks : List Int)
    (hks : ∀ k ∈ ks, -32768 ≤ k ∧ k ≤ 32767) :
    bytesToInt16s ((ks.map (fun k => int16LE (reencodeInt16 k))).flatten) =
      ks.map reencodeInt16 := by
  induction ks with
  | nil => rfl
  | cons k t ih =>
    have hk := hks k (by simp)
    have hq := (reencodeInt16_close k hk.1 hk.2).1
    simp only [List.map_cons, List.flatten_cons]
    rw [bytesToInt16s_int16LE _ hq.1 hq.2, ih (fun x hx => hks x (by simp [hx]))]

theorem flatten_length_two (l : List (List Nat)) (h : ∀ x ∈ l, x.length = 2) :
    l.flatten.length = 2 * l.length := by
  induction l with
  | nil => rfl
  | cons a t ih =>
    simp only [List.flatten_cons, List.length_append, List.length_cons,
      h a (by simp), ih (fun x hx => h x (by simp [hx]))]
    ring

theorem interleavedSamples_length (b : AudioBuffer)
    (hch : b.channelData.length = b.numberOfChannels) :
    (interleavedSamples b).length = b.length * b.numberOfChannels := by
  rw [interleavedSamples, List.length_flatMap]
  have : (List.map (List.length ∘ fun pos => b.channelData.map (fun data => data.getD pos 0))
      (List.range b.length)) = List.replicate b.length b.numberOfChannels := by
    rw [List.eq_replicate_iff]
    constructor
    · simp
    · intro x hx
      simp only [List.mem_map] at hx
      obtain ⟨pos, _, hpos⟩ := hx
      simp [← hpos, hch]
  rw [this, List.sum_replicate, smul_eq_mul]

theorem audioBufferToWav_length (b : AudioBuffer)
    (hch : b.channelData.length = b.numberOfChannels) :
    (audioBufferToWav b).length = 44 + b.length * b.numberOfChannels * 2 := by
  rw [audioBufferToWav, List.length_append, wavHeader_length,
    flatten_length_two _ (by
      intro x hx
      simp only [List.mem_map] at hx
      obtain ⟨s, _, hs⟩ := hx
      rw [← hs]
      rfl),
    List.length_map, interleavedSamples_length b hch]
  ring

/-- **C1**: Decode→encode round trip. For every non-empty synthetic 16-bit
PCM payload (hence for the all-zero, all-max, all-min and random fixtures
alike — `decodeAudio` throws on the zero-sample payload, where there is
nothing to re-encode): decoding the byte payload with `decodeAudio` and
re-encoding the resulting sample buffer with `audioBufferToWav` produces a
WAV whose 16-bit data samples each differ from the corresponding original PCM
sample by at most 1 quantization step. -/
theorem decode_encode_roundtrip_close (bytes : List Nat)
    (hb : ∀ x ∈ bytes, x < 256) (heven : bytes.length % 2 = 0)
    (hne : bytes ≠ []) :
    ∃ buf, decodeAudio bytes = .ok buf ∧
      List.Forall₂ (fun (orig reenc : Int) => (orig - reenc).natAbs ≤ 1)
        (bytesToInt16s bytes) (bytesToInt16s ((audioBufferToWav buf).drop 44)) := by
  set ks := bytesToInt16s bytes with hks
  set fs := ks.map (fun k : Int => (k : ℚ) / 32768) with hfs
  have hbounds := bytesToInt16s_mem_bounds bytes hb
  refine ⟨⟨1, 24000, bytes.length / 2, [fs]⟩, ?_, ?_⟩
  · rw [decodeAudio, if_neg (by omega),
      if_neg (fun h => hne (List.length_eq_zero.mp h))]
  · have hlen : bytes.length / 2 = fs.length := by
      rw [hfs, List.length_map, hks, bytesToInt16s_length]
    rw [hlen, audioBufferToWav_drop_header, interleavedSamples_mono, hfs, List.map_map]
    have hcomp : ((fun s => int16LE (jsTrunc (scaleSample s))) ∘ fun k : Int => (k : ℚ) / 32768)
        = fun k : Int => int16LE (reencodeInt16 k) := rfl
    rw [hcomp, bytesToInt16s_quantized ks hbounds, List.forall₂_map_right_iff]
    rw [List.forall₂_same]
    intro k hk
    exact (reencodeInt16_close k (hbounds k hk).1 (hbounds k hk).2).2

/-- Witness for C1 at the concrete payload `[0,0, 255,127, 0,128]`
(samples 0, 32767, -32768). -/
theorem decode_encode_roundtrip_close_witness :
    ∃ buf, decodeAudio [0, 0, 255, 127, 0, 128] = .ok buf ∧
      List.Forall₂ (fun (orig reenc : Int) => (orig - reenc).natAbs ≤ 1)
        (bytesToInt16s [0, 0, 255, 127, 0, 128])
        (bytesToInt16s ((audioBufferToWav buf).drop 44)) :=
  decode_encode_roundtrip_close [0, 0, 255, 127, 0, 128] (by decide) (by decide) (by decide)

/-- **C8**: `decodeAudio` fails (raises a `RangeError` rather than returning a
sample buffer) whenever the byte length of the decoded base64 payload is not a
multiple of 2, the byte width of one 16-bit sample. -/
theorem decodeAudio_odd_length_fails (bytes : List Nat)
    (hodd : bytes.length % 2 ≠ 0) :
    decodeAudio bytes =
      .error "RangeError: byte length of Int16Array should be a multiple of 2" := by
  rw [decodeAudio, if_pos hodd]

/-- Witness for C8 at the one-byte payload `[0]`. -/
theorem decodeAudio_odd_length_fails_witness :
    decodeAudio [0] =
      .error "RangeError: byte length of Int16Array should be a multiple of 2" :=
  decodeAudio_odd_length_fails [0] (by decide)

/-- **C4**: `audioBufferToWav` is total on well-formed buffers and produces a
canonical 44-byte PCM WAVE header — format tag 1 at offset 20, bits-per-sample
16 at offset 34, block align `channels × 2` at offset 32, data-chunk size
`frames × channels × 2` at offset 40 — followed by interleaved little-endian
16-bit samples, each float sample first clamped to [-1,1] and then scaled by
32768 if negative and by 32767 if non-negative. -/
theorem audioBufferToWav_canonical (b : AudioBuffer) (hwf : b.Wf) :
    (audioBufferToWav b).length = 44 + b.length * b.numberOfChannels * 2 ∧
    (audioBufferToWav b).take 4 = strBytes "RIFF" ∧
    readUint16LE (audioBufferToWav b) 20 = 1 ∧
    readUint16LE (audioBufferToWav b) 34 = 16 ∧
    readUint16LE (audioBufferToWav b) 32 = b.numberOfChannels * 2 ∧
    readUint32LE (audioBufferToWav b) 40 = b.length * b.numberOfChannels * 2 ∧
    (audioBufferToWav b).drop 44 = ((interleavedSamples b).map (fun s =>
      int16LE (jsTrunc (if max (-1) (min 1 s) < 0 then max (-1) (min 1 s) * 32768
        else max (-1) (min 1 s) * 32767)))).flatten := by
  obtain ⟨hch, hlen, hpos, hblock, hsize⟩ := hwf
  have hhl := wavHeader_length b
  have hgd : ∀ n, n < 44 → (audioBufferToWav b).getD n 0 = (wavHeader b).getD n 0 := by
    intro n hn
    rw [audioBufferToWav, List.getD_append _ _ _ _ (by omega)]
  refine ⟨audioBufferToWav_length b hch, ?_, ?_, ?_, ?_, ?_, ?_⟩
  · rw [audioBufferToWav, List.take_append_of_le_length (by omega), wavHeader_explicit]
    rfl
  · rw [readUint16LE, hgd 20 (by omega), hgd 21 (by omega), wavHeader_explicit]
    rfl
  · rw [readUint16LE, hgd 34 (by omega), hgd 35 (by omega), wavHeader_explicit]
    rfl
  · rw [readUint16LE, hgd 32 (by omega), hgd 33 (by omega), wavHeader_explicit]
    show b.numberOfChannels * 2 % 256 + 256 * (b.numberOfChannels * 2 / 256 % 256) =
      b.numberOfChannels * 2
    omega
  · rw [readUint32LE, hgd 40 (by omega), hgd 41 (by omega), hgd 42 (by omega),
      hgd 43 (by omega), wavHeader_explicit]
    show b.length * b.numberOfChannels * 2 % 256 +
        256 * (b.length * b.numberOfChannels * 2 / 256 % 256) +
        65536 * (b.length * b.numberOfChannels * 2 / 65536 % 256) +
        16777216 * (b.length * b.numberOfChannels * 2 / 16777216 % 256) =
      b.length * b.numberOfChannels * 2
    omega
  · rw [audioBufferToWav_drop_header]
    rfl

/-- Witness for C4 at a concrete two-frame mono buffer. -/
theorem audioBufferToWav_canonical_witness :
    (audioBufferToWav ⟨1, 24000, 2, [[1/2, -1/4]]⟩).length = 44 + 2 * 1 * 2 ∧
    (audioBufferToWav ⟨1, 24000, 2, [[1/2, -1/4]]⟩).take 4 = strBytes "RIFF" ∧
    readUint16LE (audioBufferToWav ⟨1, 24000, 2, [[1/2, -1/4]]⟩) 20 = 1 ∧
    readUint16LE (audioBufferToWav ⟨1, 24000, 2, [[1/2, -1/4]]⟩) 34 = 16 ∧
    readUint16LE (audioBufferToWav ⟨1, 24000, 2, [[1/2, -1/4]]⟩) 32 = 1 * 2 ∧
    readUint32LE (audioBufferToWav ⟨1, 24000, 2, [[1/2, -1/4]]⟩) 40 = 2 * 1 * 2 ∧
    (audioBufferToWav ⟨1, 24000, 2, [[1/2, -1/4]]⟩).drop 44 =
      ((interleavedSamples ⟨1, 24000, 2, [[1/2, -1/4]]⟩).map (fun s =>
        int16LE (jsTrunc (if max (-1) (min 1 s) < 0 then max (-1) (min 1 s) * 32768
          else max (-1) (min 1 s) * 32767)))).flatten :=
  audioBufferToWav_canonical ⟨1, 24000, 2, [[1/2, -1/4]]⟩ (by decide)

/-! ## `createSubtitles` (`mediaUtils.ts` lines 122–162)

Text is modelled as `List Char`. The segmentation regex
`/[^.?!,;\n]+[.?!,;\n]*/g` is embedded by the left-to-right non-overlapping
scan it performs: skip characters that cannot start a match (delimiters), then
take a maximal non-delimiter run followed by a maximal delimiter run. -/

/-- A delimiter character of the segmentation regex character class. -/
def isDelim (c : Char) : Bool :=
  c = '.' || c = '?' || c = '!' || c = ',' || c = ';' || c = '\n'

/-- Whitespace removed by JavaScript `String.prototype.trim` (the ASCII part,
which is all this pipeline's texts can contain at the trim positions). -/
def isJsSpace (c : Char) : Bool :=
  c = ' ' || c = '\t' || c = '\n' || c = '\r' || c = '\x0B' || c = '\x0C'

/-- `s.trim()`. -/
def trimChars (l : List Char) : List Char :=
  ((l.dropWhile isJsSpace).reverse.dropWhile isJsSpace).reverse

/-- Fuelled scan of the global regex match; `fuel = l.length` always suffices
since every step consumes at least one character. -/
def matchSegmentsF : Nat → List Char → List (List Char)
  | 0, _ => []
  | _ + 1, [] => []
  | fuel + 1, c :: rest =>
    if isDelim c then matchSegmentsF fuel rest
    else
      (((c :: rest).takeWhile (fun x => !isDelim x)) ++
          (((c :: rest).dropWhile (fun x => !isDelim x)).takeWhile isDelim)) ::
        matchSegmentsF fuel (((c :: rest).dropWhile (fun x => !isDelim x)).dropWhile isDelim)

/-- `fullText.match(regex)` for the global segmentation regex, as the list of
matches (`null` becomes the empty list). -/
def matchSegments (l : List Char) : List (List Char) :=
  matchSegmentsF l.length l

/-- Lines 123–125: raw matches (falling back to `[fullText]` when the regex
matches nothing), trimmed, with empty segments dropped. -/
def segmentsOf (t : List Char) : List (List Char) :=
  let raw := matchSegments t
  let rawSegments := if raw.isEmpty then [t] else raw
  (rawSegments.map trimChars).filter (fun s => decide (0 < s.length))

/-- `text.match(/[cs]$/)`: does the last character belong to `cs`? (JS `$`
without the `m` flag anchors at the very end of the string.) -/
def lastIs (s : List Char) (cs : List Char) : Bool :=
  match s.getLast? with
  | some c => cs.contains c
  | none => false

/-- `getSegmentWeight` (lines 131–139): character count plus a comma/clause
bonus of 6 or a sentence/paragraph bonus of 15. -/
def getSegmentWeight (s : List Char) : Nat :=
  s.length * 1 +
    (if lastIs s [',', ';'] then 6
     else if lastIs s ['.', '?', '!'] || s.contains '\n' then 15
     else 0)

/-- The gap-branch condition of line 152 (note: it differs from the weight
condition — a segment ending in a comma but containing a newline takes the
sentence gap while carrying the clause bonus). -/
def sentenceGap (s : List Char) : Bool :=
  lastIs s ['.', '?', '!'] || s.contains '\n'

/-- A subtitle chunk; the source's `end` field is called `endTime` because
`end` is a Lean keyword. -/
structure SubtitleChunk where
  text : List Char
  start : ℚ
  endTime : ℚ
deriving Repr, DecidableEq

/-- The `segments.map` closure of lines 146–161 with its captured running
`currentTime`, as a recursion over the remaining segments. `0.4` and `0.05`
are the exact rationals `4/10` and `5/100`. -/
def chunksFrom (spu : ℚ) : List (List Char) → ℚ → List SubtitleChunk
  | [], _ => []
  | text :: rest, currentTime =>
    let segmentTotalDuration := (getSegmentWeight text : ℚ) * spu
    let start := currentTime
    let visualEnd :=
      if sentenceGap text then start + segmentTotalDuration - 15 * spu * (4 / 10)
      else start + segmentTotalDuration - 5 / 100
    ⟨text, start, visualEnd⟩ :: chunksFrom spu rest (currentTime + segmentTotalDuration)

/-- Total weight of a text's segments (line 141). -/
def totalWeightOf (t : List Char) : Nat :=
  ((segmentsOf t).map getSegmentWeight).sum

/-- `createSubtitles` (lines 122–162). In JS, `duration / 0` is `Infinity`
rather than an error, and that value is only ever computed when `segments` is
empty, where it is never used (the map over `[]` is `[]`); `ℚ`'s `x / 0 = 0`
is equally unused on that path, so the model is faithful on every reachable
evaluation. -/
def createSubtitles (fullText : List Char) (duration : ℚ) : List SubtitleChunk :=
  let segments := segmentsOf fullText
  let totalWeight := (segments.map getSegmentWeight).sum
  let secondsPerUnit := duration / (totalWeight : ℚ)
  chunksFrom secondsPerUnit segments 0

theorem segmentsOf_pos_length (t : List Char) :
    ∀ s ∈ segmentsOf t, 0 < s.length := by
  intro s hs
  rw [segmentsOf, List.mem_filter] at hs
  exact of_decide_eq_true hs.2

theorem getSegmentWeight_ge_length (s : List Char) :
    s.length ≤ getSegmentWeight s := by
  rw [getSegmentWeight]
  split <;> omega

theorem sentenceGap_weight (s : List Char) (h : sentenceGap s = true) :
    s.length + 6 ≤ getSegmentWeight s := by
  rw [getSegmentWeight]
  split
  · omega
  · rw [if_pos (by rw [sentenceGap] at h; exact h)]
    omega

/-- Every chunk starts no earlier than the running time it was emitted at, and
ends strictly no later than the time after all remaining segments. -/
theorem chunksFrom_bounds (spu : ℚ) (hspu : 0 < spu) :
    ∀ (segs : List (List Char)) (t0 : ℚ), ∀ c ∈ chunksFrom spu segs t0,
      t0 ≤ c.start ∧ c.endTime ≤ t0 + ((segs.map getSegmentWeight).sum : ℚ) * spu := by
  intro segs
  induction segs with
  | nil => intro t0 c hc; simp [chunksFrom] at hc
  | cons s rest ih =>
    intro t0 c hc
    have hw : (0 : ℚ) ≤ (getSegmentWeight s : ℚ) := by positivity
    have hrest : (0 : ℚ) ≤ ((rest.map getSegmentWeight).sum : ℚ) := by positivity
    have hsum : ((((s :: rest).map getSegmentWeight).sum : ℕ) : ℚ) =
        (getSegmentWeight s : ℚ) + ((rest.map getSegmentWeight).sum : ℚ) := by
      push_cast [List.map_cons, List.sum_cons]
      ring
    simp only [chunksFrom, List.mem_cons] at hc
    rcases hc with hc | hc
    · subst hc
      constructor
      · simp
      · simp only [hsum]
        split
        · nlinarith
        · nlinarith
    · obtain ⟨h1, h2⟩ := ih (t0 + (getSegmentWeight s : ℚ) * spu) c hc
      constructor
      · nlinarith
      · rw [hsum]
        nlinarith

theorem chunksFrom_pairwise (spu : ℚ) (hspu : 0 < spu)
    (segs : List (List Char)) (hseg : ∀ s ∈ segs, 0 < s.length) :
    ∀ t0 : ℚ, List.Pairwise (fun a b : SubtitleChunk => a.start < b.start ∧ a.endTime ≤ b.start)
      (chunksFrom spu segs t0) := by
  induction segs with
  | nil => intro t0; simp [chunksFrom]
  | cons s rest ih =>
    intro t0
    have hw1 : (1 : ℚ) ≤ (getSegmentWeight s : ℚ) := by
      have := (hseg s (by simp)).trans_le (getSegmentWeight_ge_length s)
      exact_mod_cast this
    rw [chunksFrom]
    refine List.Pairwise.cons ?_ (ih (fun x hx => hseg x (by simp [hx])) _)
    intro b hb
    have hstart := (chunksFrom_bounds spu hspu rest _ b hb).1
    constructor
    · show t0 < b.start
      nlinarith
    · show (if sentenceGap s then t0 + (getSegmentWeight s : ℚ) * spu - 15 * spu * (4/10)
          else t0 + (getSegmentWeight s : ℚ) * spu - 5/100) ≤ b.start
      split
      · nlinarith
      · nlinarith

theorem chunksFrom_end_ge_start (spu : ℚ) (hspu : 1 / 20 ≤ spu)
    (segs : List (List Char)) (hseg : ∀ s ∈ segs, 0 < s.length) :
    ∀ t0 : ℚ, ∀ c ∈ chunksFrom spu segs t0, c.start ≤ c.endTime := by
  induction segs with
  | nil => intro t0 c hc; simp [chunksFrom] at hc
  | cons s rest ih =>
    intro t0 c hc
    simp only [chunksFrom, List.mem_cons] at hc
    rcases hc with hc | hc
    · subst hc
      show t0 ≤ (if sentenceGap s then t0 + (getSegmentWeight s : ℚ) * spu - 15 * spu * (4/10)
          else t0 + (getSegmentWeight s : ℚ) * spu - 5/100)
      have hlen : 0 < s.length := hseg s (by simp)
      split
      · next hgap =>
        have hw : (s.length : ℚ) + 6 ≤ (getSegmentWeight s : ℚ) := by
          exact_mod_cast sentenceGap_weight s hgap
        have hl1 : (1 : ℚ) ≤ (s.length : ℚ) := by exact_mod_cast hlen
        nlinarith
      · have hw : (1 : ℚ) ≤ (getSegmentWeight s : ℚ) := by
          have := hlen.trans_le (getSegmentWeight_ge_length s)
          exact_mod_cast this
        nlinarith
    · exact ih (fun x hx => hseg x (by simp [hx])) _ c hc

/-- **C2 (amended)**: the claim as stated fails — see the counterexample — but
holds once the duration is long enough for the fixed 0.05 s clause gap. For
every non-empty text and duration `D > 0`, the chunks returned by
`createSubtitles` are sorted by start and pairwise non-overlapping (each
chunk's end precedes every later chunk's start), every start is ≥ 0, every end
is ≤ D; and if additionally `D ≥ totalWeight/20` (each weight unit gets at
least 0.05 s, so every segment's allotted time covers its clause gap) then
every chunk also satisfies `start ≤ end`. -/
theorem createSubtitles_invariants (t : List Char) (D : ℚ)
    (ht : t ≠ []) (hD : 0 < D) :
    (∀ c ∈ createSubtitles t D, 0 ≤ c.start) ∧
    List.Pairwise (fun a b : SubtitleChunk => a.start < b.start ∧ a.endTime ≤ b.start)
      (createSubtitles t D) ∧
    (∀ c ∈ createSubtitles t D, c.endTime ≤ D) ∧
    ((totalWeightOf t : ℚ) / 20 ≤ D → ∀ c ∈ createSubtitles t D, c.start ≤ c.endTime) := by
  by_cases hsegs : segmentsOf t = []
  · rw [createSubtitles]
    simp [hsegs, chunksFrom]
  · have hlen := segmentsOf_pos_length t
    have hW : 0 < totalWeightOf t := by
      obtain ⟨s, hs⟩ := List.exists_mem_of_ne_nil _ hsegs
      calc 0 < getSegmentWeight s := (hlen s hs).trans_le (getSegmentWeight_ge_length s)
        _ ≤ totalWeightOf t := List.single_le_sum (by simp) _ (List.mem_map_of_mem _ hs)
    have hWq : (0 : ℚ) < (totalWeightOf t : ℚ) := by exact_mod_cast hW
    have hspu : 0 < D / (totalWeightOf t : ℚ) := div_pos hD hWq
    have hunfold : createSubtitles t D =
        chunksFrom (D / (totalWeightOf t : ℚ)) (segmentsOf t) 0 := rfl
    refine ⟨?_, ?_, ?_, ?_⟩
    · intro c hc
      rw [hunfold] at hc
      exact (chunksFrom_bounds _ hspu _ 0 c hc).1
    · rw [hunfold]
      exact chunksFrom_pairwise _ hspu _ hlen 0
    · intro c hc
      rw [hunfold] at hc
      have := (chunksFrom_bounds _ hspu _ 0 c hc).2
      have hcancel : ((((segmentsOf t).map getSegmentWeight).sum : ℕ) : ℚ) *
          (D / (totalWeightOf t : ℚ)) = D := by
        rw [show (((segmentsOf t).map getSegmentWeight).sum : ℕ) = totalWeightOf t from rfl]
        field_simp
      linarith [hcancel ▸ this]
    · intro hbig c hc
      rw [hunfold] at hc
      have h20 : (1 : ℚ) / 20 ≤ D / (totalWeightOf t : ℚ) := by
        rw [le_div_iff₀ hWq]
        linarith
      exact chunksFrom_end_ge_start _ h20 _ hlen 0 c hc

/-- Witness for C2 at text `"a"` and `D = 1` (where `totalWeight/20 = 1/20 ≤ 1`,
so the amended `start ≤ end` clause applies as well). -/
theorem createSubtitles_invariants_witness :
    (∀ c ∈ createSubtitles ['a'] 1, 0 ≤ c.start) ∧
    List.Pairwise (fun a b : SubtitleChunk => a.start < b.start ∧ a.endTime ≤ b.start)
      (createSubtitles ['a'] 1) ∧
    (∀ c ∈ createSubtitles ['a'] 1, c.endTime ≤ 1) ∧
    (∀ c ∈ createSubtitles ['a'] 1, c.start ≤ c.endTime) := by
  obtain ⟨h1, h2, h3, h4⟩ := createSubtitles_invariants ['a'] 1 (by decide) (by norm_num)
  exact ⟨h1, h2, h3, h4 (by rw [show totalWeightOf ['a'] = 1 from rfl]; norm_num)⟩

/-- **C2 counterexample**: at text `"a"` and duration `D = 1/100 > 0`, the
single returned chunk has `end = 1/100 - 1/20 < 0 = start`, refuting the
claim's `end ≥ start` (and `start ≤ end` for every chunk) as stated. -/
theorem createSubtitles_eq (t : List Char) (D : ℚ) :
    createSubtitles t D = chunksFrom (D / (totalWeightOf t : ℚ)) (segmentsOf t) 0 := rfl

theorem createSubtitles_end_lt_start_cex :
    ∃ c ∈ createSubtitles ['a'] (1 / 100), c.endTime < c.start := by
  rw [createSubtitles_eq, show segmentsOf ['a'] = [['a']] from by decide,
    show totalWeightOf ['a'] = 1 from by decide]
  simp only [chunksFrom, show sentenceGap ['a'] = false from rfl, Bool.false_eq_true,
    if_false, show getSegmentWeight ['a'] = 1 from rfl]
  refine ⟨_, List.mem_singleton_self _, ?_⟩
  norm_num

/-- **C3 (amended)**: `createSubtitles` returns the empty sequence — without
throwing and without dividing by zero — exactly for the inputs whose
segmentation yields zero segments (empty or whitespace-only text,
equivalently zero total weight). A duration `D = 0` with a nonempty
segmentation does *not* give an empty sequence (see the counterexample); that
disjunct of the claim is dropped. -/
theorem createSubtitles_degenerate_empty (t : List Char) (D : ℚ)
    (h : segmentsOf t = [] ∨ totalWeightOf t = 0) :
    createSubtitles t D = [] := by
  have hseg : segmentsOf t = [] := by
    rcases h with h | h
    · exact h
    · by_contra hne
      obtain ⟨s, hs⟩ := List.exists_mem_of_ne_nil _ hne
      have h1 := (segmentsOf_pos_length t s hs).trans_le (getSegmentWeight_ge_length s)
      have h2 : getSegmentWeight s ≤ totalWeightOf t :=
        List.single_le_sum (by simp) _ (List.mem_map_of_mem _ hs)
      omega
  rw [createSubtitles_eq, hseg]
  rfl

/-- Witness for C3 at the empty text (and the whitespace-only text `"  "`),
with `D = 5`. -/
theorem createSubtitles_degenerate_empty_witness :
    createSubtitles [] 5 = [] ∧ createSubtitles [' ', ' '] 5 = [] :=
  ⟨createSubtitles_degenerate_empty [] 5 (Or.inl (by decide)),
   createSubtitles_degenerate_empty [' ', ' '] 5 (Or.inl (by decide))⟩

/-- **C3 counterexample**: at text `"a"` and `D = 0`, `createSubtitles` does
not return the empty sequence (it returns one chunk of zero allotted
duration), refuting the claim's `D = 0` disjunct. -/
theorem createSubtitles_zero_duration_cex :
    createSubtitles ['a'] 0 ≠ [] := by
  rw [createSubtitles_eq, show segmentsOf ['a'] = [['a']] from by decide]
  simp [chunksFrom]

/-! ### The pacing fixtures of C5 -/

def periodFixture : List Char := "Hello there.".data

def commaFixture : List Char := "Hello there,".data

theorem createSubtitles_periodFixture (D : ℚ) :
    createSubtitles periodFixture D = [⟨periodFixture, 0, D * (7 / 9)⟩] := by
  rw [createSubtitles_eq, show segmentsOf periodFixture = [periodFixture] from by decide,
    show totalWeightOf periodFixture = 27 from by decide]
  simp [chunksFrom, show sentenceGap periodFixture = true from by decide,
    show getSegmentWeight periodFixture = 27 from by decide]
  ring

theorem createSubtitles_commaFixture (D : ℚ) :
    createSubtitles commaFixture D = [⟨commaFixture, 0, D - 5 / 100⟩] := by
  rw [createSubtitles_eq, show segmentsOf commaFixture = [commaFixture] from by decide,
    show totalWeightOf commaFixture = 18 from by decide]
  simp [chunksFrom, show sentenceGap commaFixture = false from by decide,
    show getSegmentWeight commaFixture = 18 from by decide]
  ring

/-- **C5 (amended)**: for the fixtures `"Hello there."` and `"Hello there,"`
at the same duration `D`, the trailing gap of the period fixture (allotted
duration minus visible duration, i.e. `D - (end - start)` for the single
chunk) strictly exceeds the comma fixture's gap *provided `D > 9/40`*; for
`0 < D ≤ 9/40` the inequality fails (see the counterexample), because the
period gap `2D/9` scales with `D` while the comma gap is the fixed `0.05 s`. -/
theorem subtitle_gap_period_gt_comma (D : ℚ) (hD : 9 / 40 < D) :
    ∃ cP cC, createSubtitles periodFixture D = [cP] ∧
      createSubtitles commaFixture D = [cC] ∧
      D - (cC.endTime - cC.start) < D - (cP.endTime - cP.start) := by
  refine ⟨_, _, createSubtitles_periodFixture D, createSubtitles_commaFixture D, ?_⟩
  show D - (D - 5 / 100 - 0) < D - (D * (7 / 9) - 0)
  linarith

/-- Witness for C5's amended statement at `D = 1`. -/
theorem subtitle_gap_period_gt_comma_witness :
    ∃ cP cC, createSubtitles periodFixture 1 = [cP] ∧
      createSubtitles commaFixture 1 = [cC] ∧
      1 - (cC.endTime - cC.start) < 1 - (cP.endTime - cP.start) :=
  subtitle_gap_period_gt_comma 1 (by norm_num)

/-- **C5 counterexample**: at the fixed duration `D = 1/10 > 0`, the period
fixture's trailing gap (`1/45`) is strictly *smaller* than the comma
fixture's (`1/20`), refuting the claim as stated for all `D > 0`. -/
theorem subtitle_gap_cex :
    ∃ cP cC, createSubtitles periodFixture (1 / 10) = [cP] ∧
      createSubtitles commaFixture (1 / 10) = [cC] ∧
      1 / 10 - (cP.endTime - cP.start) < (1 / 10 : ℚ) - (cC.endTime - cC.start) := by
  refine ⟨_, _, createSubtitles_periodFixture _, createSubtitles_commaFixture _, ?_⟩
  norm_num

/-! ## `wrapText` (`mediaUtils.ts` lines 184–201)

`text.split(' ')` splits at every single space (keeping empty strings between
consecutive separators), and the measurement callback
`ctx.measureText(...).width` is an arbitrary function of the measured string,
taken as a parameter `measure`. -/

/-- `text.split(' ')` on a character list. Always returns at least one word
(the empty text splits to `[[]]`), matching JS where `words[0]` always
exists. -/
def splitWords : List Char → List (List Char)
  | [] => [[]]
  | c :: rest =>
    match splitWords rest with
    | [] => [[c]]
    | w :: ws => if c = ' ' then [] :: w :: ws else (c :: w) :: ws

/-- Join a list of words with single spaces (the string concatenations
`currentLine + " " + word` build exactly such joins). -/
def joinWords : List (List Char) → List Char
  | [] => []
  | [w] => w
  | w :: w2 :: ws => w ++ ' ' :: joinWords (w2 :: ws)

/-- The `for` loop of lines 189–198 over the remaining words, carrying
`lines` and `currentLine`. -/
def wrapLoop (measure : List Char → ℚ) (maxWidth : ℚ) :
    List (List Char) → List Char → List (List Char) → List (List Char)
  | lines, currentLine, [] => lines ++ [currentLine]
  | lines, currentLine, word :: rest =>
    if measure (currentLine ++ ' ' :: word) < maxWidth then
      wrapLoop measure maxWidth lines (currentLine ++ ' ' :: word) rest
    else
      wrapLoop measure maxWidth (lines ++ [currentLine]) word rest

/-- `wrapText` (lines 184–201): seed `currentLine` with `words[0]`, loop over
the rest, push the final `currentLine`. The `[] => [[]]` arm is unreachable
(`splitWords` never returns the empty list). -/
def wrapText (measure : List Char → ℚ) (text : List Char) (maxWidth : ℚ) :
    List (List Char) :=
  match splitWords text with
  | [] => [[]]
  | w :: ws => wrapLoop measure maxWidth [] w ws

theorem splitWords_cons_eq (c : Char) (rest w : List Char) (ws : List (List Char))
    (h : splitWords rest = w :: ws) :
    splitWords (c :: rest) = if c = ' ' then [] :: w :: ws else (c :: w) :: ws := by
  rw [splitWords, h]

theorem splitWords_ne_nil (l : List Char) : splitWords l ≠ [] := by
  induction l with
  | nil => simp [splitWords]
  | cons c rest ih =>
    cases h : splitWords rest with
    | nil => exact absurd h ih
    | cons w ws =>
      rw [splitWords_cons_eq c rest w ws h]
      split <;> simp

theorem splitWords_no_space (l : List Char) (h : ' ' ∉ l) : splitWords l = [l] := by
  induction l with
  | nil => rfl
  | cons c rest ih =>
    rw [splitWords_cons_eq c rest rest [] (ih (fun hm => h (by simp [hm]))),
      if_neg (fun hc => h (by simp [hc]))]

theorem joinWords_append (a b : List (List Char)) (ha : a ≠ []) (hb : b ≠ []) :
    joinWords (a ++ b) = joinWords a ++ ' ' :: joinWords b := by
  induction a with
  | nil => exact absurd rfl ha
  | cons w ws ih =>
    cases ws with
    | nil =>
      cases b with
      | nil => exact absurd rfl hb
      | cons b1 bs => rfl
    | cons w2 ws2 =>
      have : (w :: w2 :: ws2) ++ b = w :: ((w2 :: ws2) ++ b) := rfl
      rw [this]
      rw [show joinWords (w :: (w2 :: ws2 ++ b)) = w ++ ' ' :: joinWords (w2 :: ws2 ++ b) from
        by cases ws2 <;> rfl]
      rw [ih (by simp), joinWords]
      simp

theorem joinWords_splitWords (l : List Char) : joinWords (splitWords l) = l := by
  induction l with
  | nil => rfl
  | cons c rest ih =>
    cases h : splitWords rest with
    | nil => exact absurd h (splitWords_ne_nil rest)
    | cons w ws =>
      rw [splitWords_cons_eq c rest w ws h]
      rw [h] at ih
      by_cases hc : c = ' '
      · subst hc
        rw [if_pos rfl]
        rw [show joinWords ([] :: w :: ws) = [] ++ ' ' :: joinWords (w :: ws) from rfl]
        simp [ih]
      · rw [if_neg hc]
        cases ws with
        | nil =>
          simp only [joinWords] at ih ⊢
          rw [ih]
        | cons w2 ws2 =>
          rw [show joinWords ((c :: w) :: w2 :: ws2) =
            (c :: w) ++ ' ' :: joinWords (w2 :: ws2) from rfl]
          rw [show joinWords (w :: w2 :: ws2) = w ++ ' ' :: joinWords (w2 :: ws2) from rfl] at ih
          rw [← ih]
          rfl

/-- Invariant of the wrap loop: the emitted lines are the space-joins of a
grouping of the words processed so far, in order. -/
theorem wrapLoop_structure (measure : List Char → ℚ) (maxWidth : ℚ) :
    ∀ (rest : List (List Char)) (lines : List (List Char)) (g : List (List Char)),
      g ≠ [] →
      ∃ gs : List (List (List Char)), (∀ x ∈ gs, x ≠ []) ∧ gs.flatten = g ++ rest ∧
        wrapLoop measure maxWidth lines (joinWords g) rest = lines ++ gs.map joinWords := by
  intro rest
  induction rest with
  | nil =>
    intro lines g hg
    exact ⟨[g], by simp [hg], by simp, rfl⟩
  | cons word rs ih =>
    intro lines g hg
    have hjoin : joinWords g ++ ' ' :: word = joinWords (g ++ [word]) := by
      rw [joinWords_append g [word] hg (by simp)]
      rfl
    rw [wrapLoop]
    split
    · rw [hjoin]
      obtain ⟨gs, h1, h2, h3⟩ := ih lines (g ++ [word]) (by simp)
      exact ⟨gs, h1, by simp [h2], h3⟩
    · have hword : (word : List Char) = joinWords [word] := rfl
      rw [hword]
      obtain ⟨gs, h1, h2, h3⟩ := ih (lines ++ [joinWords g]) [word] (by simp)
      refine ⟨g :: gs, ?_, ?_, ?_⟩
      · intro x hx
        rcases List.mem_cons.mp hx with hx | hx
        · subst hx
          exact hg
        · exact h1 x hx
      · simp [h2]
        rfl
      · rw [h3]
        simp

theorem wrapText_eq (measure : List Char → ℚ) (text : List Char) (maxWidth : ℚ)
    (w : List Char) (ws : List (List Char)) (h : splitWords text = w :: ws) :
    wrapText measure text maxWidth = wrapLoop measure maxWidth [] w ws := by
  rw [wrapText, h]

theorem joinWords_map_joinWords (gs : List (List (List Char)))
    (h : ∀ x ∈ gs, x ≠ []) :
    joinWords (gs.map joinWords) = joinWords gs.flatten := by
  induction gs with
  | nil => rfl
  | cons g gs2 ih =>
    cases gs2 with
    | nil =>
      show joinWords g = joinWords (g ++ [].flatten)
      rw [List.flatten_nil, List.append_nil]
    | cons g2 gs3 =>
      have hg : g ≠ [] := h g (by simp)
      have hflat : (g2 :: gs3).flatten ≠ [] := by
        have hg2 : g2 ≠ [] := h g2 (by simp)
        simp only [List.flatten_cons]
        intro hc
        exact hg2 (List.append_eq_nil.mp hc).1
      rw [show (g :: g2 :: gs3).flatten = g ++ (g2 :: gs3).flatten from rfl,
        joinWords_append g _ hg hflat,
        show List.map joinWords (g :: g2 :: gs3) =
          joinWords g :: List.map joinWords (g2 :: gs3) from rfl,
        show joinWords (joinWords g :: List.map joinWords (g2 :: gs3)) =
          joinWords g ++ ' ' :: joinWords (List.map joinWords (g2 :: gs3)) from rfl,
        ih (fun x hx => h x (by simp [hx]))]

/-- **C9**: `wrapText` never splits a word. Every line it produces is the
space-join of a consecutive group of the input's words (line breaks fall only
at the spaces between words), and for a single word — in particular one whose
measured width exceeds the maximum — the output is exactly one line holding
that word unmodified. -/
theorem wrapText_never_splits_words (measure : List Char → ℚ) (maxWidth : ℚ)
    (text : List Char) :
    (∃ gs : List (List (List Char)), (∀ x ∈ gs, x ≠ []) ∧
      gs.flatten = splitWords text ∧
      wrapText measure text maxWidth = gs.map joinWords) ∧
    (' ' ∉ text → maxWidth < measure text →
      wrapText measure text maxWidth = [text]) := by
  constructor
  · cases h : splitWords text with
    | nil => exact absurd h (splitWords_ne_nil text)
    | cons w ws =>
      rw [wrapText_eq measure text maxWidth w ws h]
      obtain ⟨gs, h1, h2, h3⟩ := wrapLoop_structure measure maxWidth ws [] [w] (by simp)
      refine ⟨gs, h1, by simp [h2, h], ?_⟩
      rw [show (w : List Char) = joinWords [w] from rfl, h3]
      rfl
  · intro hsp hwide
    rw [wrapText_eq measure text maxWidth text [] (splitWords_no_space text hsp)]
    rfl

/-- Witness for C9 with `measure = character count`, `maxWidth = 2` and the
single word `"Hello"` of measured width 5 > 2: the output is the one
unmodified line `["Hello"]`. -/
theorem wrapText_never_splits_words_witness :
    (∃ gs : List (List (List Char)), (∀ x ∈ gs, x ≠ []) ∧
      gs.flatten = splitWords "Hello".data ∧
      wrapText (fun l => (l.length : ℚ)) "Hello".data 2 = gs.map joinWords) ∧
    wrapText (fun l => (l.length : ℚ)) "Hello".data 2 = ["Hello".data] :=
  ⟨(wrapText_never_splits_words (fun l => (l.length : ℚ)) 2 "Hello".data).1,
   (wrapText_never_splits_words (fun l => (l.length : ℚ)) 2 "Hello".data).2
     (by decide)
     (by rw [show ("Hello".data).length = 5 from by decide]; norm_num)⟩

/-- No two consecutive characters of `l` are both spaces. -/
def noDoubleSpaceB : List Char → Bool
  | [] => true
  | [_] => true
  | a :: b :: rest => !(a = ' ' && b = ' ') && noDoubleSpaceB (b :: rest)

/-- Text free of two consecutive spaces (the hypothesis under which C10 states
content preservation; the proof does not in fact need it, but the claim is
stated with it). -/
def NoDoubleSpace (l : List Char) : Prop :=
  noDoubleSpaceB l = true

instance (l : List Char) : Decidable (NoDoubleSpace l) :=
  inferInstanceAs (Decidable (noDoubleSpaceB l = true))

/-- **C10**: wrapping preserves content. For every text with no two
consecutive spaces, every measurement function and every maximum width,
joining the lines returned by `wrapText` with single spaces reproduces the
input text exactly — no word dropped, duplicated, reordered or altered. -/
theorem wrapText_preserves_content (measure : List Char → ℚ) (maxWidth : ℚ)
    (text : List Char) (h : NoDoubleSpace text) :
    joinWords (wrapText measure text maxWidth) = text := by
  cases hs : splitWords text with
  | nil => exact absurd hs (splitWords_ne_nil text)
  | cons w ws =>
    rw [wrapText_eq measure text maxWidth w ws hs]
    obtain ⟨gs, h1, h2, h3⟩ := wrapLoop_structure measure maxWidth ws [] [w] (by simp)
    rw [show (w : List Char) = joinWords [w] from rfl, h3, List.nil_append,
      joinWords_map_joinWords gs h1, h2]
    rw [show ([w] : List (List Char)) ++ ws = w :: ws from rfl, ← hs]
    exact joinWords_splitWords text

/-- Witness for C10 at the two-word text `"ab cd"`, `measure = character
count`, `maxWidth = 3`. -/
theorem wrapText_preserves_content_witness :
    joinWords (wrapText (fun l => (l.length : ℚ)) "ab cd".data 3) = "ab cd".data :=
  wrapText_preserves_content (fun l => (l.length : ℚ)) 3 "ab cd".data (by decide)

/-! ## `renderVideoViaServer` (`serverRender.ts` lines 8–57)

The `fetch` call either rejects with `TypeError: Failed to fetch` (transport
failure) or yields a response with an `ok` flag and a JSON body. Thrown JS
`Error` objects carry `name = "Error"` and a message. The `catch` block maps
any error whose message contains `'Failed to fetch'` or whose name is
`TypeError` to the fixed "start the server" guidance message, and rethrows
everything else unchanged. -/

/-- Does `hay` start with `needle`? -/
def startsWithChars : List Char → List Char → Bool
  | _, [] => true
  | [], _ :: _ => false
  | h :: hs, n :: ns => h = n && startsWithChars hs ns

/-- Does `hay` contain `needle` as a contiguous substring
(JS `String.prototype.includes`)? -/
def containsChars (hay needle : List Char) : Bool :=
  match hay with
  | [] => startsWithChars [] needle
  | c :: t => startsWithChars (c :: t) needle || containsChars t needle

/-- `s.includes(sub)`. -/
def strIncludes (s sub : String) : Bool :=
  containsChars s.data sub.data

/-- A thrown JavaScript error value: its `name` and `message`. -/
structure JSError where
  name : String
  message : String
deriving Repr, DecidableEq

/-- The parsed JSON body of a server response: optional `error` string,
`success` flag, optional `videoData`. -/
structure ServerBody where
  error : Option String
  success : Bool
  videoData : Option String
deriving Repr, DecidableEq

/-- The outcome of the `fetch` call: a transport-level failure (the rejection
`TypeError: Failed to fetch`, line 25's comment), or a reached server's
response with its HTTP `ok` status and JSON body. -/
inductive FetchOutcome where
  | networkFailure
  | response (ok : Bool) (body : ServerBody)
deriving Repr, DecidableEq

/-- The hard-coded guidance thrown on connection failure (line 53). -/
def serviceUnavailableMessage : String :=
  "Không thể kết nối đến Server Node.js (cổng 3001).\n\nHãy mở Terminal và chạy lệnh: npm run server"

/-- JavaScript `v || dflt` for an optional string `v`: the fallback fires on
every falsy value — absent/null/undefined *and* the empty string. -/
def jsStrOr (v : Option String) (dflt : String) : String :=
  match v with
  | none => dflt
  | some s => if s = "" then dflt else s

/-- JavaScript truthiness of an optional string: false for absent/null/
undefined and for the empty string. -/
def jsStrTruthy (v : Option String) : Bool :=
  match v with
  | none => false
  | some s => !(s == "")

/-- `renderVideoViaServer` (lines 8–57), given the fetch outcome. The `try`
body: a transport failure rethrows the fetch `TypeError`; a non-ok response
throws `Error(err.error || 'Server error')` (line 40 — the fallback also
fires on a falsy empty-string `error` field); an ok response returns
`videoData` when `data.success && data.videoData` is truthy and otherwise
throws (lines 44–48). The `catch` (lines 50–56) remaps matching errors to the
service-unavailable guidance and rethrows the rest. -/
def renderVideoViaServer (f : FetchOutcome) : Except JSError String :=
  let tryResult : Except JSError String :=
    match f with
    | .networkFailure => .error ⟨"TypeError", "Failed to fetch"⟩
    | .response ok body =>
      if !ok then .error ⟨"Error", jsStrOr body.error "Server error"⟩
      else if body.success && jsStrTruthy body.videoData then .ok (body.videoData.getD "")
      else .error ⟨"Error", "No video data received"⟩
  match tryResult with
  | .ok v => .ok v
  | .error e =>
    if strIncludes e.message "Failed to fetch" || e.name == "TypeError" then
      .error ⟨"Error", serviceUnavailableMessage⟩
    else
      .error e

/-- **C7 (amended)**: `renderVideoViaServer` discriminates the two failure
modes: a transport-level failure produces the fixed service-unavailable
guidance error, and a non-2xx response whose body carries `{error: message}`
produces an error carrying that service message verbatim — *provided the
service message is non-empty* (the `||` fallback of line 40 substitutes
`'Server error'` for a falsy empty message) *and does not contain the
substring `'Failed to fetch'`* (otherwise the catch block's transport-error
test misfires and remaps it; see the counterexample). For such messages,
e.g. `"ffmpeg not found"`, the two outcomes are distinguishable. -/
theorem renderVideoViaServer_discriminates (msg : String)
    (hne : msg ≠ "") (hmsg : strIncludes msg "Failed to fetch" = false) :
    renderVideoViaServer .networkFailure =
      .error ⟨"Error", serviceUnavailableMessage⟩ ∧
    renderVideoViaServer (.response false ⟨some msg, false, none⟩) =
      .error ⟨"Error", msg⟩ := by
  constructor
  · rfl
  · have hbeq : (("Error" : String) == "TypeError") = false := by decide
    simp [renderVideoViaServer, jsStrOr, hne, hmsg, hbeq]

/-- Witness for C7 at the spec's fixture message `"ffmpeg not found"`,
additionally noting the two error messages differ (distinguishability). -/
theorem renderVideoViaServer_discriminates_witness :
    (renderVideoViaServer .networkFailure =
      .error ⟨"Error", serviceUnavailableMessage⟩ ∧
    renderVideoViaServer (.response false ⟨some "ffmpeg not found", false, none⟩) =
      .error ⟨"Error", "ffmpeg not found"⟩) ∧
    serviceUnavailableMessage ≠ "ffmpeg not found" :=
  ⟨renderVideoViaServer_discriminates "ffmpeg not found" (by decide) (by decide), by decide⟩

/-- **C7 counterexample**: if the reached server's own error message happens
to contain `'Failed to fetch'`, the catch block remaps it to the
service-unavailable guidance instead of passing it through verbatim, so the
claim as stated (verbatim for every service message) is false. -/
theorem renderVideoViaServer_masked_message_cex :
    renderVideoViaServer (.response false ⟨some "Failed to fetch", false, none⟩) =
      .error ⟨"Error", serviceUnavailableMessage⟩ ∧
    serviceUnavailableMessage ≠ "Failed to fetch" := by
  exact ⟨rfl, by decide⟩

/-! ## `generateVideoBlob` teardown (`mediaUtils.ts` lines 206–362)

The render's control flow settles its promise on exactly one of these exit
paths; the model records, for each, whether the promise settles, whether the
`AudioContext` of `startRecording` (line 239) was created, and whether
`audioCtx.close()` ran. -/

/-- The exit paths of one `generateVideoBlob` render:
* `canvasCtxFail` — `getContext` returns null, reject at lines 219–222;
* `imageLoadFail` — `img.onerror`, reject at line 236;
* `recorderCtorFail` — the `MediaRecorder` constructor throws, reject at
  lines 264–267 (inside `startRecording`, after the context was created);
* `drawLoopStop` — the draw loop passes `audioBuffer.duration + 0.5` and
  calls `recorder.stop()` (line 346), whose `onstop` closes the context and
  resolves (lines 273–277);
* `audioEnded` — `source.onended` stops the recorder (lines 354–359), again
  reaching `onstop`. -/
inductive RenderExit where
  | canvasCtxFail
  | imageLoadFail
  | recorderCtorFail
  | drawLoopStop
  | audioEnded
deriving Repr, DecidableEq

/-- What one render leaves behind on a given exit path. -/
structure RenderOutcome where
  settled : Bool
  audioCtxCreated : Bool
  audioCtxClosed : Bool
deriving Repr, DecidableEq

/-- The outcome of `generateVideoBlob` on each exit path, read directly off
the handlers: only `recorder.onstop` (lines 273–277) ever calls
`audioCtx.close()`; the `catch` around the `MediaRecorder` constructor
(lines 264–267) rejects without closing the context created at line 239. -/
def generateVideoBlobRun : RenderExit → RenderOutcome
  | .canvasCtxFail => ⟨true, false, false⟩
  | .imageLoadFail => ⟨true, false, false⟩
  | .recorderCtorFail => ⟨true, true, false⟩
  | .drawLoopStop => ⟨true, true, true⟩
  | .audioEnded => ⟨true, true, true⟩

/-- On every exit path other than the `MediaRecorder`-constructor failure,
a created audio context is closed before the promise settles. -/
theorem generateVideoBlobRun_other_paths_close :
    ∀ e : RenderExit, e ≠ .recorderCtorFail →
      (generateVideoBlobRun e).audioCtxCreated = true →
      (generateVideoBlobRun e).audioCtxClosed = true := by
  intro e he
  cases e <;> simp_all [generateVideoBlobRun]

/-- **C6 exhibit (code bug)**: on the `MediaRecorder`-unsupported exit path
the promise settles (rejects) while the audio context created by that render
is never closed — contradicting the claim (and the spec's teardown rule) that
every exit path tears the context down. -/
theorem generateVideoBlob_leaks_on_recorder_failure :
    (generateVideoBlobRun .recorderCtorFail).settled = true ∧
    (generateVideoBlobRun .recorderCtorFail).audioCtxCreated = true ∧
    (generateVideoBlobRun .recorderCtorFail).audioCtxClosed = false :=
  ⟨rfl, rfl, rfl⟩

end StoryGen

